import Mathlib

/-!
Verification development for the cockpit-apt backend (Python sources under
`backend/`).  The Python code is shallowly embedded: every pure fragment of
the source becomes an executable Lean function over `List Char` / `String`
data; process interaction (the APT cache, subprocesses) is made explicit as
function parameters describing the observed outside behaviour.

Where a helper module of the repository is not part of the provided sources
(only its tests and callers are), its definition is reconstructed from the
specification and its doc comment starts with `Modelled from the spec:`.
-/

/- ### Character and string utilities

Python string operations (`str.lower`, `str.strip`, `in`, `split`,
lexicographic comparison) are embedded as executable functions on `List Char`
so that all theorems can be evaluated by the kernel. -/

/-- Lower-case a character sequence (embeds Python `str.lower` for the
ASCII-level strings appearing in package metadata). -/
def lowerChars (l : List Char) : List Char := l.map Char.toLower

/-- Whitespace as recognised by Python `str.strip()` (space, tab, newline,
carriage return, vertical tab, form feed). -/
def isSpaceChar (c : Char) : Bool :=
  c = ' ' || c = '\t' || c = '\n' || c = '\r' || c = '\x0b' || c = '\x0c'

/-- Embeds Python `str.strip()`. -/
def trimChars (l : List Char) : List Char :=
  ((l.dropWhile isSpaceChar).reverse.dropWhile isSpaceChar).reverse

/-- `str.strip()` on `String`. -/
def strTrim (s : String) : String := ⟨trimChars s.data⟩

/-- Does the second sequence start with the first one? -/
def startsChars : List Char → List Char → Bool
  | [], _ => true
  | _ :: _, [] => false
  | a :: as, b :: bs => a = b && startsChars as bs

/-- Embeds Python `needle in hay` (substring containment). -/
def subChars (needle : List Char) : List Char → Bool
  | [] => needle.isEmpty
  | c :: rest => startsChars needle (c :: rest) || subChars needle rest

/-- Substring containment on `String`: `strContains hay needle` embeds the
Python expression `needle in hay`. -/
def strContains (hay needle : String) : Bool := subChars needle.data hay.data

/-- Lexicographic "less or equal" on character sequences by code point,
embedding Python string comparison. -/
def lexLe : List Char → List Char → Bool
  | [], _ => true
  | _ :: _, [] => false
  | a :: as, b :: bs =>
    if a.toNat < b.toNat then true
    else if b.toNat < a.toNat then false
    else lexLe as bs

/-- Case-insensitive string order (embeds Python `key=str.lower` sorting,
i.e. `sorted(..., key=lambda r: r.name.lower())`). -/
def nameLeCI (a b : String) : Bool := lexLe (lowerChars a.data) (lowerChars b.data)

/-- Prepend a character to the first part of a split result. -/
def consHead (c : Char) : List (List Char) → List (List Char)
  | [] => [[c]]
  | p :: ps => (c :: p) :: ps

/-- Embeds Python `s.split(sep)` (split on every occurrence of a one-character
separator; `"".split(sep) == [""]`). -/
def splitCharAll (sep : Char) : List Char → List (List Char)
  | [] => [[]]
  | c :: rest =>
    if c = sep then [] :: splitCharAll sep rest
    else consHead c (splitCharAll sep rest)

/-- Embeds Python `s.split(sep, maxsplit)` for a one-character separator:
split on at most `m` occurrences, scanning left to right. -/
def splitCharMax (sep : Char) : Nat → List Char → List (List Char)
  | _, [] => [[]]
  | m, c :: rest =>
    if c = sep && m ≠ 0 then [] :: splitCharMax sep (m - 1) rest
    else consHead c (splitCharMax sep m rest)

/-- `s.split(sep, maxsplit)` on `String`, producing `String` parts. -/
def pySplitMax (s : String) (sep : Char) (m : Nat) : List String :=
  (splitCharMax sep m s.data).map (fun l => (⟨l⟩ : String))

/-- Numeric value of a digit sequence. -/
def digitsToNat (l : List Char) : Nat :=
  l.foldl (fun acc c => acc * 10 + (c.toNat - '0'.toNat)) 0

/-- The outcome of Python `float(s)` followed by `int(...)`, as observed by
`_parse_status_line`: `invalid` when `float()` raises ValueError; `nan` when
the parsed value is NaN, so `int(nan)` raises a ValueError that the parser
catches; `inf` when the value is ±Infinity (given literally or by
overflow), so `int(±inf)` raises an OverflowError that the parser does not
catch; and `finite t` with `t = int(value)` otherwise. -/
inductive PyFloatVal where
  | invalid : PyFloatVal
  | nan : PyFloatVal
  | inf : PyFloatVal
  | finite (t : Int) : PyFloatVal
deriving DecidableEq, Repr

/-- Tail of a digit run with PEP-515 underscores: every character is a
digit, or an underscore followed by a digit, and the run ends in a digit. -/
def undTail : List Char → Bool
  | [] => true
  | [c] => c.isDigit
  | c :: c2 :: rest => (c.isDigit || (c = '_' && c2.isDigit)) && undTail (c2 :: rest)

/-- A possibly-empty digit run with PEP-515 underscores: empty, or starting
with a digit, with every underscore sitting between two digits. -/
def validUnd : List Char → Bool
  | [] => true
  | c :: rest => c.isDigit && undTail (c :: rest)

/-- Remove the underscores of a validated digit run. -/
def stripUnd (l : List Char) : List Char := l.filter (fun c => c ≠ '_')

/-- Split at the first `e`/`E`, separating a decimal mantissa from the
exponent part (when present). -/
def splitExpChars : List Char → List Char × Option (List Char)
  | [] => ([], none)
  | c :: rest =>
    if c = 'e' || c = 'E' then ([], some rest)
    else
      let p := splitExpChars rest
      (c :: p.1, p.2)

/-- Floor of the base-2 logarithm, by structural recursion on a fuel bound
(so that the kernel can evaluate it, unlike the well-founded `Nat.log2`);
`natLog2Aux fuel n` equals `Nat.log2 n` whenever `fuel ≥ n`. -/
def natLog2Aux : Nat → Nat → Nat
  | 0, _ => 0
  | fuel + 1, n => if 2 ≤ n then natLog2Aux fuel (n / 2) + 1 else 0

/-- Floor of the base-2 logarithm (0 at 0). -/
def natLog2 (n : Nat) : Nat := natLog2Aux n n

/-- Truncation toward zero of the IEEE-754 double nearest to `m * 10^e`
(round to nearest, ties to even), as a magnitude; `none` when the value
overflows to infinity.  Computed with exact rational arithmetic: locate the
binary exponent `k` with `2^k ≤ m*10^e < 2^(k+1)`, round the 53-bit
significand half-to-even, renormalize, and truncate.  Values below `2^-1`
(all subnormals included) truncate to 0 whatever the rounding does. -/
def truncDecimal (m : Nat) (e : Int) : Option Nat :=
  if m = 0 then some 0
  else
    let num : Nat := if 0 ≤ e then m * 10 ^ e.toNat else m
    let den : Nat := if 0 ≤ e then 1 else 10 ^ (-e).toNat
    let a : Int := natLog2 num
    let b : Int := natLog2 den
    let guessOK : Bool :=
      if 0 ≤ a - b then 2 ^ (a - b).toNat * den ≤ num
      else den ≤ 2 ^ (b - a).toNat * num
    let k : Int := if guessOK then a - b else a - b - 1
    if k ≤ -2 then some 0
    else
      let N : Nat := if 0 ≤ 52 - k then num * 2 ^ (52 - k).toNat else num
      let D : Nat := if 0 ≤ 52 - k then den else den * 2 ^ (k - 52).toNat
      let q := N / D
      let r := N % D
      let S := q + (if D < 2 * r then 1 else if 2 * r = D then q % 2 else 0)
      let S2 : Nat := if S = 2 ^ 53 then 2 ^ 52 else S
      let k2 : Int := if S = 2 ^ 53 then k + 1 else k
      if 1024 ≤ k2 then none
      else if k2 < 0 then some 0
      else if 52 ≤ k2 then some (S2 * 2 ^ (k2 - 52).toNat)
      else some (S2 / 2 ^ (52 - k2).toNat)

/-- Assemble the parse outcome of a signed decimal `±(m * 10^e)`: finite
truncation toward zero, or ±Infinity on overflow. -/
def pyFloatOf (neg : Bool) (m : Nat) (e : Int) : PyFloatVal :=
  match truncDecimal m e with
  | none => .inf
  | some t => .finite (if neg then -(t : Int) else (t : Int))

/-- Embeds Python `int(float(s))` as observed by `_parse_status_line`, for
ASCII strings: strip surrounding whitespace, take an optional sign, then
either the keywords `inf`/`infinity`/`nan` (case-insensitive) or a decimal
form `[digits][.digits][(e|E)[±]digits]` with PEP-515 underscores permitted
between digits, evaluated as the exactly-rounded IEEE-754 double and
truncated toward zero.  Unicode digits and non-ASCII whitespace, which
CPython would also normalize, do not occur in the status-fd protocol and
are not modelled. -/
def pyFloat (s : String) : PyFloatVal :=
  let l := trimChars s.data
  let neg : Bool := match l with
    | '-' :: _ => true
    | _ => false
  let body : List Char := match l with
    | '-' :: r => r
    | '+' :: r => r
    | _ => l
  let low := lowerChars body
  if low = "inf".data || low = "infinity".data then .inf
  else if low = "nan".data then .nan
  else
    let me := splitExpChars body
    let expVal : Option Int :=
      match me.2 with
      | none => some 0
      | some ex =>
        let eneg : Bool := match ex with
          | '-' :: _ => true
          | _ => false
        let ebody : List Char := match ex with
          | '-' :: r => r
          | '+' :: r => r
          | _ => ex
        if ebody ≠ [] && validUnd ebody then
          some (if eneg then -(digitsToNat (stripUnd ebody) : Int)
                else (digitsToNat (stripUnd ebody) : Int))
        else none
    match expVal with
    | none => .invalid
    | some ev =>
      match splitCharAll '.' me.1 with
      | [ip] =>
        if validUnd ip && stripUnd ip ≠ [] then
          pyFloatOf neg (digitsToNat (stripUnd ip)) ev
        else .invalid
      | [ip, fp] =>
        if validUnd ip && validUnd fp && (stripUnd ip ≠ [] || stripUnd fp ≠ []) then
          pyFloatOf neg (digitsToNat (stripUnd ip ++ stripUnd fp))
            (ev - (stripUnd fp).length)
        else .invalid
      | _ => .invalid

/- ### Data model

The read-only view of a python-apt package as consumed by the backend:
`pkg.name`, `pkg.candidate` (with `version`, `origins`, `section`, `summary`
and the `record["Tag"]` field), `pkg.is_installed`, `pkg.is_upgradable`. -/

/-- One entry of `pkg.candidate.origins`. -/
structure OriginRecord where
  origin : String
  label : String
  suite : String
deriving DecidableEq, Repr

/-- The candidate version metadata of a package (`pkg.candidate`).
`sectionName` embeds `candidate.section` (`none` when absent), `summary`
embeds `candidate.summary`, and `tagField` embeds `candidate.record["Tag"]`
(`none` when the record has no `Tag` key). -/
structure Candidate where
  version : String
  origins : List OriginRecord
  sectionName : Option String
  summary : Option String
  tagField : Option String
deriving DecidableEq, Repr

/-- A python-apt package as observed by the backend commands. -/
structure Package where
  name : String
  candidate : Option Candidate
  is_installed : Bool
  is_upgradable : Bool
deriving DecidableEq, Repr

/-- The four criterion lists of a store filter (store configuration). -/
structure StoreFilter where
  include_origins : List String
  include_sections : List String
  include_tags : List String
  include_packages : List String
deriving DecidableEq, Repr

/-- Declarative category metadata attached to a store configuration. -/
structure CategoryMetadata where
  id : String
  label : String
  icon : Option String
  description : Option String
deriving DecidableEq, Repr

/-- A loaded store configuration. -/
structure StoreConfig where
  id : String
  name : String
  description : String
  filters : StoreFilter
  category_metadata : List CategoryMetadata
deriving DecidableEq, Repr

/-- The typed errors raised by the backend (`CacheError` carries message and
details; `APTBridgeError` carries message, machine-readable code and optional
details; `PackageNotFoundError` carries the package name). -/
inductive AptError where
  | cacheError (message : String) (details : String)
  | bridgeError (message : String) (code : String) (details : Option String)
  | notFound (package_name : String)
deriving DecidableEq, Repr

/- ### TagParser (cockpit_apt/utils/debtag_parser.py — not under the provided
sources; reconstructed from the spec §4.1). -/

/-- Modelled from the spec: `parseTags` of the missing `debtag_parser`
module — `[]` if the package has no candidate metadata or no `Tag` field;
otherwise split the raw tag field on `,`, trim whitespace around each token
and drop tokens that are empty after trimming, keeping appearance order. -/
def parse_package_tags (pkg : Package) : List String :=
  match pkg.candidate with
  | none => []
  | some c =>
    match c.tagField with
    | none => []
    | some tf =>
      (((splitCharAll ',' tf.data).map trimChars).filter (fun l => l ≠ [])).map
        (fun l => (⟨l⟩ : String))

/-- Split a character sequence at the first occurrence of `"::"`:
`some (before, after)` when the separator occurs, `none` otherwise. -/
def splitFirstColons : List Char → Option (List Char × List Char)
  | [] => none
  | c :: rest =>
    if c = ':' && rest.head? = some ':' then some ([], rest.tail)
    else (splitFirstColons rest).map (fun p => (c :: p.1, p.2))

/-- Modelled from the spec: `splitFacet` (`get_tag_facet` of the missing
`debtag_parser` module) — split a tag on the first `::` occurrence only;
return `none` for a tag with no separator or with an empty facet or empty
value component. -/
def get_tag_facet (tag : String) : Option (String × String) :=
  match splitFirstColons tag.data with
  | none => none
  | some (f, v) => if f = [] || v = [] then none else some (⟨f⟩, ⟨v⟩)

/-- Modelled from the spec: `hasTag` of the missing `debtag_parser` module —
exact case-sensitive membership of the raw tag token in the parsed tag list. -/
def has_tag (pkg : Package) (tag : String) : Bool :=
  (parse_package_tags pkg).contains tag

/-- Modelled from the spec: `valuesForFacet` (`get_tags_by_facet` of the
missing `debtag_parser` module) — all values, in appearance order with
duplicates allowed, of parsed tags whose facet equals the given facet;
bare tags (no `::`) never match. -/
def get_tags_by_facet (pkg : Package) (facet : String) : List String :=
  (parse_package_tags pkg).filterMap (fun t =>
    match get_tag_facet t with
    | some (f, v) => if f = facet then some v else none
    | none => none)

/-- Modelled from the spec: label auto-derivation of the missing
`debtag_parser` module — title-case the category id with the separators
`-` and `_` converted to spaces.  The first letter of each word is
upper-cased and the rest lower-cased. -/
def titleChars : Bool → List Char → List Char
  | _, [] => []
  | atStart, c :: rest =>
    if c = '-' || c = '_' || c = ' ' then ' ' :: titleChars true rest
    else (if atStart then c.toUpper else c.toLower) :: titleChars false rest

/-- Modelled from the spec: `derive_category_label` of the missing
`debtag_parser` module (see `titleChars`). -/
def derive_category_label (category_id : String) : String :=
  ⟨titleChars true category_id.data⟩

/- ### StoreFilterEngine (cockpit_apt/utils/store_filter.py — not under the
provided sources; reconstructed from the spec §4.2). -/

/-- The section attribute used by the filtering engine: the candidate's
section, defaulting to `"unknown"` when the candidate or the section is
absent or empty (Python `candidate.section or "unknown"`). -/
def pkg_section (pkg : Package) : String :=
  match pkg.candidate with
  | some c =>
    match c.sectionName with
    | some s => if s = "" then "unknown" else s
    | none => "unknown"
  | none => "unknown"

/-- Modelled from the spec: the origin key of a package — the first origin
record's `origin`, falling back to its `label` when the origin is empty
(Python `origin or label`), and the empty string when the package has no
origin records. -/
def origin_key (pkg : Package) : String :=
  match pkg.candidate with
  | some c =>
    match c.origins with
    | r :: _ => if r.origin = "" then r.label else r.origin
    | [] => ""
  | none => ""

/-- Modelled from the spec: `matches_store_filter` of the missing
`store_filter` module — a package matches when any non-empty criterion list
contains the package's corresponding attribute, evaluated in order
packages, origins, sections, tags with short-circuiting. -/
def matches_store_filter (pkg : Package) (store : StoreConfig) : Bool :=
  let f := store.filters
  if !f.include_packages.isEmpty && f.include_packages.contains pkg.name then true
  else if !f.include_origins.isEmpty && f.include_origins.contains (origin_key pkg) then true
  else if !f.include_sections.isEmpty && f.include_sections.contains (pkg_section pkg) then true
  else if !f.include_tags.isEmpty && f.include_tags.any (fun t => has_tag pkg t) then true
  else false

/- ### RepositoryResolver (cockpit_apt/utils/repository_parser.py — not under
the provided sources; reconstructed from the spec §4.3). -/

/-- A derived logical repository. -/
structure Repository where
  id : String
  name : String
  origin : String
  label : String
  suite : String
  package_count : Nat
deriving DecidableEq, Repr

/-- The first origin record of a package's candidate, if any. -/
def first_origin (pkg : Package) : Option OriginRecord :=
  match pkg.candidate with
  | some c => c.origins.head?
  | none => none

/-- Modelled from the spec: the repository grouping key of a package —
inspect only the first origin record; `none` (skip) when there are no origin
records, no suite, or neither origin nor label; otherwise
`(origin-or-label, suite)`. -/
def repo_key (pkg : Package) : Option (String × String) :=
  match first_origin pkg with
  | none => none
  | some r =>
    if r.suite = "" then none
    else if r.origin = "" && r.label = "" then none
    else some (if r.origin = "" then r.label else r.origin, r.suite)

/-- An aggregation cell while grouping packages by repository. -/
structure RepoGroup where
  key : String
  suite : String
  origin : String
  label : String
  count : Nat
deriving DecidableEq, Repr

/-- The grouping key of an aggregation cell. -/
def groupKey (g : RepoGroup) : String × String := (g.key, g.suite)

/-- Add one package to the aggregation: skipped packages leave the groups
unchanged; otherwise the matching group's count is incremented, or a new
group is appended carrying the package's first origin record's fields. -/
def add_to_groups (groups : List RepoGroup) (pkg : Package) : List RepoGroup :=
  match repo_key pkg, first_origin pkg with
  | some (k, su), some r =>
    if groups.any (fun g => groupKey g = (k, su)) then
      groups.map (fun g => if groupKey g = (k, su) then { g with count := g.count + 1 } else g)
    else groups ++ [⟨k, su, r.origin, r.label, 1⟩]
  | _, _ => groups

/-- Case-insensitive order on repositories by display name. -/
def repoNameLe (a b : Repository) : Prop := nameLeCI a.name b.name = true

instance : DecidableRel repoNameLe := fun a b =>
  inferInstanceAs (Decidable (nameLeCI a.name b.name = true))

/-- Modelled from the spec: `parse_repositories` of the missing
`repository_parser` module — group the non-skipped packages by
`(origin-or-label, suite)`, count members, build
`id = "{origin_or_label}:{suite}"` with display name equal to the grouping
key (origin preferred over label), and sort case-insensitively by name. -/
def parse_repositories (packages : List Package) : List Repository :=
  let groups := packages.foldl add_to_groups []
  let repos := groups.map (fun g =>
    ⟨g.key ++ ":" ++ g.suite, g.key, g.origin, g.label, g.suite, g.count⟩)
  List.insertionSort repoNameLe repos

/-- Modelled from the spec: `package_matches_repository` of the missing
`repository_parser` module — the package's derived repository id equals the
given id. -/
def package_matches_repository (pkg : Package) (repository_id : String) : Bool :=
  match repo_key pkg with
  | some (k, su) => (k ++ ":" ++ su) = repository_id
  | none => false

/- ### CatalogFilterPipeline
(src/backend/cockpit_apt_bridge/commands/filter_packages.py). -/

/-- A package summary as produced by `format_package`
(src/backend/cockpit_apt_bridge/utils/formatters.py).  `summary` is
optional: with a candidate the field is `candidate.summary` verbatim
(Python `None`, serialized as JSON null, stays `none`); without a candidate
the source emits the empty string. -/
structure PackageSummary where
  name : String
  summary : Option String
  version : String
  installed : Bool
  sectionName : String
deriving DecidableEq, Repr

/-- Embeds `format_package`: name, candidate summary (`candidate.summary if
candidate else ""`), candidate version (`"unknown"` without a candidate),
installed flag, and section defaulting to `"unknown"`. -/
def format_package (pkg : Package) : PackageSummary :=
  match pkg.candidate with
  | some c => ⟨pkg.name, c.summary, c.version, pkg.is_installed, pkg_section pkg⟩
  | none => ⟨pkg.name, some "", "unknown", pkg.is_installed, "unknown"⟩

/-- The result record of the filter-packages command. -/
structure FilterResult where
  packages : List PackageSummary
  total_count : Nat
  applied_filters : List String
  limit : Nat
  limited : Bool
deriving DecidableEq, Repr

/-- Python truthiness of an optional CLI string: `None` and `""` are falsy.
Used to embed the `if store_id:` / `if tab:` / `if search_query:` checks. -/
def optTruthy (o : Option String) : Option String :=
  match o with
  | some s => if s = "" then none else some s
  | none => none

/-- The per-package cascade of filter_packages.execute (lines 91-121):
skip without candidate, then store filter, repository filter, tab filter and
case-insensitive search over name or candidate summary (an absent or empty
summary never matches). -/
def passes_filters (store : Option StoreConfig) (repository_id : Option String)
    (tab : Option String) (search_query : Option String) (pkg : Package) : Bool :=
  match pkg.candidate with
  | none => false
  | some c =>
    (match store with
     | some s => matches_store_filter pkg s
     | none => true) &&
    (match repository_id with
     | some rid => package_matches_repository pkg rid
     | none => true) &&
    (match tab with
     | some t =>
       if t = "installed" then pkg.is_installed
       else if t = "upgradable" then pkg.is_upgradable
       else true
     | none => true) &&
    (match search_query with
     | some q =>
       let ql := lowerChars q.data
       subChars ql (lowerChars pkg.name.data) ||
       (match c.summary with
        | some sm => sm ≠ "" && subChars ql (lowerChars sm.data)
        | none => false)
     | none => true)

/-- The `applied_filters` description list (filter_packages.execute
lines 124-131), in cascade order, with one `"key=value"` entry per active
filter. -/
def applied_filters_list (store_id repository_id tab search_query : Option String) :
    List String :=
  (match store_id with | some s => ["store=" ++ s] | none => []) ++
  (match repository_id with | some r => ["repository=" ++ r] | none => []) ++
  (match tab with | some t => ["tab=" ++ t] | none => []) ++
  (match search_query with | some q => ["search=" ++ q] | none => [])

/-- The error raised for an invalid tab value (filter_packages.execute
lines 80-84). -/
def invalid_tab_error (t : String) : AptError :=
  .cacheError ("Invalid tab filter: " ++ t) "Tab must be 'installed' or 'upgradable'"

/-- Embeds `filter_packages.execute`.  `cacheResult` is the outcome of
`apt.Cache()` (the external call: `.error` when opening the cache raised,
`.ok` with the package snapshot otherwise) and `stores` the outcome of
`load_stores()`.  Faithful to the source order: the cache is opened first,
then the store config is resolved, then the tab value is validated, and only
then packages are filtered.  Optional CLI strings go through Python
truthiness (`optTruthy`). -/
def filter_packages_execute (cacheResult : Except String (List Package))
    (stores : List StoreConfig) (store_id repository_id tab search_query : Option String)
    (limit : Nat) : Except AptError FilterResult :=
  match cacheResult with
  | .error e => .error (.cacheError "Failed to open APT cache" e)
  | .ok cache =>
    let sid := optTruthy store_id
    let rid := optTruthy repository_id
    let tb := optTruthy tab
    let sq := optTruthy search_query
    let storeStep : Except AptError (Option StoreConfig) :=
      match sid with
      | none => .ok none
      | some s =>
        match stores.find? (fun st => st.id = s) with
        | some st => .ok (some st)
        | none =>
          .error (.cacheError ("Store not found: " ++ s)
            ("No store configuration found with id '" ++ s ++ "'"))
    match storeStep with
    | .error err => .error err
    | .ok store =>
      match tb with
      | some t =>
        if t ≠ "installed" && t ≠ "upgradable" then .error (invalid_tab_error t)
        else
          let matching := cache.filter (passes_filters store rid tb sq)
          .ok ⟨(matching.take limit).map format_package, matching.length,
            applied_filters_list sid rid tb sq, limit, decide (matching.length > limit)⟩
      | none =>
        let matching := cache.filter (passes_filters store rid tb sq)
        .ok ⟨(matching.take limit).map format_package, matching.length,
          applied_filters_list sid rid tb sq, limit, decide (matching.length > limit)⟩

/- ### CategoryDiscoveryEngine
(src/backend/cockpit_apt_bridge/commands/list_categories.py). -/

/-- A discovered category with attached metadata and count. -/
structure Category where
  id : String
  label : String
  icon : Option String
  description : Option String
  count : Nat
deriving DecidableEq, Repr

/-- Metadata lookup for a category id: the map comprehension
`{meta.id: meta for meta in store_config.category_metadata}` keeps the last
entry for a duplicated id, hence the lookup on the reversed list.  Without a
store there is no metadata. -/
def metadata_for (store : Option StoreConfig) (category_id : String) :
    Option CategoryMetadata :=
  match store with
  | some s => s.category_metadata.reverse.find? (fun m => m.id = category_id)
  | none => none

/-- The per-package admission test of list_categories.execute (lines 77-83):
the optional store filter first, then the candidate check. -/
def category_passes (store : Option StoreConfig) (pkg : Package) : Bool :=
  (match store with
   | some s => matches_store_filter pkg s
   | none => true) && pkg.candidate.isSome

/-- One step of `category_counts[category_id] = category_counts.get(...) + 1`
on an insertion-ordered association list. -/
def bump_count (acc : List (String × Nat)) (category_id : String) : List (String × Nat) :=
  if acc.any (fun e => e.1 = category_id) then
    acc.map (fun e => if e.1 = category_id then (e.1, e.2 + 1) else e)
  else acc ++ [(category_id, 1)]

/-- The stream of `category::` tag values contributed by the admitted
packages, in traversal order (one entry per tag occurrence). -/
def category_stream (packages : List Package) (store : Option StoreConfig) : List String :=
  packages.flatMap (fun pkg =>
    if category_passes store pkg then get_tags_by_facet pkg "category" else [])

/-- The counting loop of list_categories.execute (lines 75-90): an
insertion-ordered association list from category id to count. -/
def collect_category_counts (packages : List Package) (store : Option StoreConfig) :
    List (String × Nat) :=
  packages.foldl
    (fun acc pkg =>
      if category_passes store pkg then (get_tags_by_facet pkg "category").foldl bump_count acc
      else acc)
    []

/-- Order on categories by label (Python `sort(key=lambda c: c["label"])`). -/
def catLabelLe (a b : Category) : Prop := lexLe a.label.data b.label.data = true

instance : DecidableRel catLabelLe := fun a b =>
  inferInstanceAs (Decidable (lexLe a.label.data b.label.data = true))

/-- Embeds `list_categories.execute` (given an already-resolved optional
store): count category tag occurrences over the admitted packages, attach
store metadata or an auto-derived label, and sort by label. -/
def list_categories_execute (packages : List Package) (store : Option StoreConfig) :
    List Category :=
  let cats := (collect_category_counts packages store).map (fun e =>
    match metadata_for store e.1 with
    | some m => ⟨e.1, m.label, m.icon, m.description, e.2⟩
    | none => ⟨e.1, derive_category_label e.1, none, none, e.2⟩)
  List.insertionSort catLabelLe cats

/-- The number of `category::category_id` tag occurrences among admitted
packages — the quantity the counting loop accumulates. -/
def category_occurrences (packages : List Package) (store : Option StoreConfig)
    (category_id : String) : Nat :=
  (category_stream packages store).count category_id

/- ### ProgressLineProtocol
(src/backend/cockpit_apt_bridge/commands/install.py, `_parse_status_line`,
identical in src/backend/cockpit_apt/commands/remove.py). -/

/-- A normalized progress event. -/
structure ProgressInfo where
  percentage : Int
  message : String
deriving DecidableEq, Repr

/-- Embeds `_parse_status_line` with its exception behaviour explicit:
split the line on `:` with maxsplit 3; fewer than four parts, a first part
other than `pmstatus`/`dlstatus`, a third part `float()` rejects
(ValueError, caught) or parses as NaN (`int(nan)` raises ValueError,
caught) yield `.ok none`; a third part equal to ±Infinity (literally or by
overflow) makes `int(±inf)` raise an OverflowError the function does not
catch, modelled `.error ()`; otherwise the event carries the truncated
percentage and the stripped fourth part as message, falling back to
`"Processing {package}..."` when empty. -/
def parse_status_line_outcome (line : String) : Except Unit (Option ProgressInfo) :=
  if line = "" then .ok none
  else
    match pySplitMax line ':' 3 with
    | [status_type, package, percent_str, message] =>
      if status_type = "pmstatus" || status_type = "dlstatus" then
        match pyFloat percent_str with
        | .finite p =>
          .ok (some ⟨p, if strTrim message = "" then "Processing " ++ package ++ "..."
                        else strTrim message⟩)
        | .invalid => .ok none
        | .nan => .ok none
        | .inf => .error ()
      else .ok none
    | _ => .ok none

/-- The non-raising projection of `parse_status_line_outcome`, used by the
supervision-loop model.  On the OverflowError path the real loop aborts the
whole operation (no further events are emitted); the projection skips the
line instead, so the real event stream is a prefix of the modelled one and
the per-operation monotonicity bounds carry over. -/
def parse_status_line (line : String) : Option ProgressInfo :=
  match parse_status_line_outcome line with
  | .ok r => r
  | .error _ => none

/-- The supervision loop body of install.execute lines 88-113 (identical in
remove.execute lines 97-122) at line granularity, starting from a last
emitted percentage: each complete line is stripped, parsed, and emits an
event exactly when its percentage strictly exceeds the last emitted one,
which then becomes the new threshold. -/
def emit_from (last : Int) : List String → List ProgressInfo
  | [] => []
  | raw :: rest =>
    let line := strTrim raw
    if line = "" then emit_from last rest
    else
      match parse_status_line line with
      | none => emit_from last rest
      | some info =>
        if info.percentage > last then info :: emit_from info.percentage rest
        else emit_from last rest

/-- The events emitted while the child runs (`last_percentage` starts at 0). -/
def status_emitted (lines : List String) : List ProgressInfo := emit_from 0 lines

/-- The full progress event stream of one supervised install operation: the
line-derived events plus, when the child exits 0, the unconditional final
`{"percentage": 100, "message": "Installation complete"}` event
(install.execute lines 135-137). -/
def install_events (lines : List String) (exitCode : Int) : List ProgressInfo :=
  status_emitted lines ++ (if exitCode = 0 then [⟨100, "Installation complete"⟩] else [])

/- ### Update command (src/backend/cockpit_apt/commands/update.py). -/

/-- One repository-fetch line of `apt-get update` output, per the regex
`(Get|Hit|Ign):(\d+)\s+(.+)`: the flag (`true` for `Get`/`Hit`), the index
and the URL. -/
def parse_fetch_line (line : String) : Option (Bool × Nat × String) :=
  let l := line.data
  let tag3 : Option Bool :=
    if startsChars "Get:".data l then some true
    else if startsChars "Hit:".data l then some true
    else if startsChars "Ign:".data l then some false
    else none
  match tag3 with
  | none => none
  | some completed =>
    let rest := l.drop 4
    let digits := rest.takeWhile (fun c => c.isDigit)
    let after := rest.dropWhile (fun c => c.isDigit)
    if digits = [] then none
    else
      let url := after.dropWhile isSpaceChar
      if after.take 1 |>.all isSpaceChar then
        if after = [] || url = [] then none
        else some (completed, digitsToNat digits, ⟨url⟩)
      else none

/-- The progress-scraping loop of update.execute (lines 49-85): track the
highest index seen as an approximate total and the index of the last
`Get`/`Hit` line as completed, emitting an event per fetch line once a total
is known. -/
def update_scrape_step (st : Nat × Nat × List ProgressInfo) (raw : String) :
    Nat × Nat × List ProgressInfo :=
  match parse_fetch_line (strTrim raw) with
  | none => st
  | some (completed, num, url) =>
    let total := if num > st.1 then num else st.1
    let done := if completed then num else st.2.1
    if total > 0 then
      (total, done,
        st.2.2 ++ [⟨(done * 100) / total, "Updating: " ++ (⟨url.data.take 60⟩ : String) ++ "..."⟩])
    else (total, done, st.2.2)

/-- The value `process.communicate()` returns for stderr in update.execute:
the process was started with `stderr=subprocess.STDOUT`, so the `Popen`
object has no stderr stream and `communicate()` always returns `None` for
it.  The captured diagnostic output all went to stdout. -/
def update_stderr_captured : Option String := none

/-- The failure classification of update.execute (lines 95-106), applied to
the stderr value obtained from `communicate()` (Python `(stderr or "")`). -/
def update_classify (stderr : Option String) : AptError :=
  let diag := stderr.getD ""
  if strContains diag "Could not resolve" then
    .bridgeError "Network error: Unable to reach package repositories" "NETWORK_ERROR"
      (some diag)
  else if strContains diag "dpkg was interrupted" then
    .bridgeError "Package manager is locked" "LOCKED" (some diag)
  else .bridgeError "Failed to update package lists" "UPDATE_FAILED" (some diag)

/-- Embeds `update.execute` as a function of the child's merged
stdout+stderr lines and exit code: the loop scrapes progress from the output
lines; on non-zero exit the error is classified from
`update_stderr_captured` (which is `none` — see its doc comment — so the
classification never sees the merged output); on success a final 100% event
is appended.  The details field of the raised error is Python
`details=stderr`, i.e. `None`. -/
def update_execute (outputLines : List String) (exitCode : Int) :
    List ProgressInfo × Except AptError Unit :=
  let progress := (outputLines.foldl update_scrape_step (0, 0, [])).2.2
  if exitCode = 0 then (progress ++ [⟨100, "Package lists updated"⟩], .ok ())
  else
    (progress,
     .error (match update_classify update_stderr_captured with
       | .bridgeError m c _ => .bridgeError m c update_stderr_captured
       | e => e))

/- ### Remove command (src/backend/cockpit_apt/commands/remove.py). -/

/-- The fixed set of essential packages the remove command refuses to touch
(remove.py lines 17-29). -/
def ESSENTIAL_PACKAGES : List String :=
  ["dpkg", "apt", "apt-get", "libc6", "init", "systemd", "base-files",
   "base-passwd", "bash", "coreutils"]

/-- Modelled from the spec: `validate_package_name` of the missing
`validators` module — a validation error (rejected before any external
call) for an invalid package name; valid names are taken as non-empty
sequences of lower-case letters, digits, `-`, `.` and `+` (Debian package
name alphabet). -/
def valid_package_name (name : String) : Bool :=
  !name.data.isEmpty &&
    name.data.all (fun c => c.isLower || c.isDigit || c = '-' || c = '.' || c = '+')

/-- The failure classification of remove.execute (lines 129-140). -/
def classify_remove_failure (package_name : String) (stderr : String) : AptError :=
  if strContains stderr "Unable to locate package" || strContains stderr "is not installed" then
    .notFound package_name
  else if strContains stderr "dpkg was interrupted" then
    .bridgeError "Package manager is locked" "LOCKED" (some stderr)
  else
    .bridgeError ("Failed to remove package '" ++ package_name ++ "'") "REMOVE_FAILED"
      (some stderr)

instance {ε α : Type} [DecidableEq ε] [DecidableEq α] : DecidableEq (Except ε α) := fun x y =>
  match x, y with
  | .ok a, .ok b =>
    if h : a = b then isTrue (by rw [h]) else isFalse (fun hh => h (by injection hh))
  | .error a, .error b =>
    if h : a = b then isTrue (by rw [h]) else isFalse (fun hh => h (by injection hh))
  | .ok _, .error _ => isFalse (fun hh => Except.noConfusion hh)
  | .error _, .ok _ => isFalse (fun hh => Except.noConfusion hh)

/-- The observable outcome of one remove invocation: whether the `apt-get`
subprocess was spawned, the emitted progress events, and the final result. -/
structure RemoveRun where
  spawned : Bool
  events : List ProgressInfo
  result : Except AptError Unit
deriving DecidableEq, Repr

/-- Embeds `remove.execute` as a function of the observed child behaviour
(status-fd lines, exit code, captured stderr): name validation first, then
the essential-package check — both return before the subprocess is spawned —
then the supervised run with the same emission loop as install, the final
100% event on success, and failure classification from stderr. -/
def remove_execute (package_name : String) (statusLines : List String)
    (exitCode : Int) (stderr : String) : RemoveRun :=
  if !valid_package_name package_name then
    ⟨false, [],
     .error (.bridgeError ("Invalid package name: " ++ package_name) "VALIDATION_ERROR" none)⟩
  else if ESSENTIAL_PACKAGES.contains package_name then
    ⟨false, [],
     .error (.bridgeError ("Cannot remove essential package '" ++ package_name ++ "'")
       "ESSENTIAL_PACKAGE" (some "Removing this package may break your system"))⟩
  else if exitCode = 0 then
    ⟨true, status_emitted statusLines ++ [⟨100, "Removal complete"⟩], .ok ()⟩
  else
    ⟨true, status_emitted statusLines,
     .error (classify_remove_failure package_name stderr)⟩

/- ### Invariants used to verify the two aggregation folds -/

/-- Invariant of the repository grouping fold after processing `done`: group
keys are pairwise distinct; each group's count is exactly the number of
processed packages keyed to it (never zero) and its fields are consistent
(the key prefers origin over label, the suite is non-empty, the key is
non-empty); and every processed non-skipped package has a group. -/
def GroupsOK (done : List Package) (groups : List RepoGroup) : Prop :=
  (groups.map groupKey).Nodup ∧
  (∀ g ∈ groups,
    g.count = done.countP (fun p => decide (repo_key p = some (groupKey g))) ∧
    0 < g.count ∧
    g.key = (if g.origin = "" then g.label else g.origin) ∧
    g.suite ≠ "" ∧ g.key ≠ "") ∧
  (∀ p ∈ done, ∀ k su, repo_key p = some (k, su) → ∃ g ∈ groups, groupKey g = (k, su))

/-- Invariant of the category counting fold after processing the occurrence
stream `occs`: keys are pairwise distinct; each entry's count is the number
of occurrences of its key (never zero); and every seen key has an entry. -/
def CountsOK (occs : List String) (acc : List (String × Nat)) : Prop :=
  (acc.map Prod.fst).Nodup ∧
  (∀ e ∈ acc, e.2 = occs.count e.1 ∧ 0 < e.2) ∧
  (∀ cid ∈ occs, ∃ e ∈ acc, e.1 = cid)

/- ### Concrete sample data, used to evaluate theorems on closed inputs -/

/-- A not-installed web server package from Debian bookworm. -/
def samplePkgA : Package :=
  ⟨"nginx", some ⟨"1.18.0", [⟨"Debian", "Debian", "bookworm"⟩], some "web",
    some "small web server", none⟩, false, false⟩

/-- An installed, upgradable editor package from Debian bookworm. -/
def samplePkgB : Package :=
  ⟨"vim", some ⟨"9.0", [⟨"Debian", "Debian", "bookworm"⟩], some "editors",
    some "Vi editor", none⟩, true, true⟩

/-- An installed package from a label-only origin whose tag field repeats
the same `category::x` tag twice. -/
def samplePkgC : Package :=
  ⟨"custom-tool", some ⟨"3.0", [⟨"", "Custom", "stable"⟩], some "misc",
    some "site tool", some "category::x, category::x, field::marine"⟩, true, false⟩

/-- A small package collection exercising both repositories. -/
def samplePkgs : List Package := [samplePkgA, samplePkgB, samplePkgC]

/- ### Helper lemmas on the string utilities -/

theorem consHead_ne_nil (c : Char) (xs : List (List Char)) : consHead c xs ≠ [] := by
  cases xs <;> simp [consHead]

theorem consHead_length_of_ne_nil (c : Char) {xs : List (List Char)} (h : xs ≠ []) :
    (consHead c xs).length = xs.length := by
  cases xs with
  | nil => exact absurd rfl h
  | cons p ps => simp [consHead]

theorem splitCharMax_ne_nil (sep : Char) (m : Nat) (l : List Char) :
    splitCharMax sep m l ≠ [] := by
  cases l with
  | nil => simp [splitCharMax]
  | cons c rest =>
    rw [splitCharMax]
    split
    · simp
    · exact consHead_ne_nil _ _

theorem splitCharMax_length (sep : Char) :
    ∀ (l : List Char) (m : Nat), (splitCharMax sep m l).length ≤ m + 1 := by
  intro l
  induction l with
  | nil => intro m; simp [splitCharMax]
  | cons c rest ih =>
    intro m
    rw [splitCharMax]
    split
    next h =>
      have hm : m ≠ 0 := by
        rcases Bool.and_eq_true .. |>.mp h with ⟨-, h2⟩
        simpa using h2
      have := ih (m - 1)
      simp only [List.length_cons]
      omega
    next =>
      rw [consHead_length_of_ne_nil _ (splitCharMax_ne_nil sep m rest)]
      exact ih m

theorem parse_status_line_outcome_four (line st pkg pct msg : String) (hline : line ≠ "")
    (hp : pySplitMax line ':' 3 = [st, pkg, pct, msg]) :
    parse_status_line_outcome line =
      (if (st = "pmstatus" || st = "dlstatus") = true then
        match pyFloat pct with
        | .finite p =>
          .ok (some ⟨p, if strTrim msg = "" then "Processing " ++ pkg ++ "..."
                        else strTrim msg⟩)
        | .invalid => .ok none
        | .nan => .ok none
        | .inf => .error ()
      else .ok none) := by
  rw [parse_status_line_outcome, if_neg hline, hp]

set_option maxRecDepth 8000 in
set_option exponentiation.threshold 1500 in
/-- Claim C2: the progress-line parser returns an event iff splitting the
line on `:` into at most 4 parts yields at least 4 parts (the split always
yields at most 4), the first part is exactly `"pmstatus"` or `"dlstatus"`,
and the third part parses — and truncates — as a finite floating-point
number; the event carries the truncated percentage and the stripped fourth
part as message, falling back to `"Processing {package}..."` when empty; in
particular `"pmstatus:nginx:25.5:Installing nginx"` yields percentage 25
with message `"Installing nginx"`.  Exponent and underscore forms are
accepted as CPython accepts them (`1e2` is 100, `2_5` is 25); a NaN third
part returns no event (the ValueError from `int(nan)` is caught), and a
±Infinity third part — literal or by overflow — raises an uncaught
OverflowError, also returning no event. -/
theorem parse_status_line_correct :
    (∀ line : String, (pySplitMax line ':' 3).length ≤ 4) ∧
    (∀ line : String,
      (∃ ev, parse_status_line_outcome line = .ok (some ev)) ↔
      ∃ st pkg pct msg, pySplitMax line ':' 3 = [st, pkg, pct, msg] ∧
        (st = "pmstatus" ∨ st = "dlstatus") ∧ ∃ p, pyFloat pct = .finite p) ∧
    (∀ line st pkg pct msg p, pySplitMax line ':' 3 = [st, pkg, pct, msg] →
      (st = "pmstatus" ∨ st = "dlstatus") → pyFloat pct = .finite p →
      parse_status_line_outcome line =
        .ok (some ⟨p, if strTrim msg = "" then "Processing " ++ pkg ++ "..."
                      else strTrim msg⟩)) ∧
    parse_status_line_outcome "pmstatus:nginx:25.5:Installing nginx" =
      .ok (some ⟨25, "Installing nginx"⟩) ∧
    parse_status_line_outcome "pmstatus:a:1e2:m" = .ok (some ⟨100, "m"⟩) ∧
    parse_status_line_outcome "pmstatus:a:2_5:m" = .ok (some ⟨25, "m"⟩) ∧
    parse_status_line_outcome "pmstatus:a:nan:m" = .ok none ∧
    parse_status_line_outcome "pmstatus:a:inf:m" = .error () ∧
    parse_status_line_outcome "pmstatus:a:1e400:m" = .error () := by
  have hempty : pySplitMax "" ':' 3 = [""] := by decide
  have heval : ∀ line st pkg pct msg p, pySplitMax line ':' 3 = [st, pkg, pct, msg] →
      (st = "pmstatus" ∨ st = "dlstatus") → pyFloat pct = .finite p →
      parse_status_line_outcome line =
        .ok (some ⟨p, if strTrim msg = "" then "Processing " ++ pkg ++ "..."
                      else strTrim msg⟩) := by
    intro line st pkg pct msg p hp hst hfl
    have hline : line ≠ "" := by
      intro h; subst h; rw [hempty] at hp; exact absurd hp (by simp)
    have hb : (st = "pmstatus" || st = "dlstatus") = true := by
      rcases hst with h1 | h1 <;> simp [h1]
    rw [parse_status_line_outcome_four line st pkg pct msg hline hp, if_pos hb, hfl]
  refine ⟨?_, ?_, heval, by decide, by decide, by decide, by decide, by decide, by decide⟩
  · intro line
    have := splitCharMax_length ':' line.data 3
    simpa [pySplitMax] using this
  · intro line
    constructor
    · rintro ⟨ev, hev⟩
      have hline : line ≠ "" := by
        intro heq; subst heq
        rw [show parse_status_line_outcome "" = .ok none from by decide] at hev
        simp at hev
      rcases hp : pySplitMax line ':' 3 with - | ⟨st, - | ⟨pkg, - | ⟨pct, - | ⟨msg, rest⟩⟩⟩⟩ <;>
        rw [parse_status_line_outcome, if_neg hline, hp] at hev
      · simp at hev
      · simp at hev
      · simp at hev
      · simp at hev
      · cases rest with
        | nil =>
          refine ⟨st, pkg, pct, msg, rfl, ?_⟩
          by_cases hst : st = "pmstatus" ∨ st = "dlstatus"
          · refine ⟨hst, ?_⟩
            have hb : (st = "pmstatus" || st = "dlstatus") = true := by
              rcases hst with h1 | h1 <;> simp [h1]
            have h2 : (match pyFloat pct with
              | .finite p =>
                Except.ok (some (⟨p, if strTrim msg = "" then "Processing " ++ pkg ++ "..."
                                     else strTrim msg⟩ : ProgressInfo))
              | .invalid => Except.ok none
              | .nan => Except.ok none
              | .inf => Except.error ()) = Except.ok (some ev) := by
              refine Eq.trans ?_ hev
              exact (if_pos hb).symm
            cases hfl : pyFloat pct with
            | finite q => exact ⟨q, rfl⟩
            | invalid => rw [hfl] at h2; simp at h2
            | nan => rw [hfl] at h2; simp at h2
            | inf => rw [hfl] at h2; simp at h2
          · exfalso
            have hb : (st = "pmstatus" || st = "dlstatus") = false := by
              push_neg at hst
              simp [hst.1, hst.2]
            have h2 : (Except.ok none : Except Unit (Option ProgressInfo)) =
                Except.ok (some ev) := by
              refine Eq.trans ?_ hev
              exact (if_neg (by simp [hb])).symm
            simp at h2
        | cons x xs =>
          exfalso
          have hlen := splitCharMax_length ':' line.data 3
          have h5 : (pySplitMax line ':' 3).length = 5 + xs.length := by
            rw [hp]; simp; omega
          have h4 : (pySplitMax line ':' 3).length ≤ 4 := by
            simpa [pySplitMax] using hlen
          omega
    · rintro ⟨st, pkg, pct, msg, hp, hst, p, hfl⟩
      exact ⟨_, heval line st pkg pct msg p hp hst hfl⟩

/-- Witness for C2: the theorem applied to the status line
`"pmstatus:git:100.0:"` whose message part is empty, producing the
synthesized `"Processing git..."` message. -/
theorem parse_status_line_correct_witness :
    parse_status_line_outcome "pmstatus:git:100.0:" =
      .ok (some ⟨100, "Processing git..."⟩) := by
  have h := parse_status_line_correct.2.2.1 "pmstatus:git:100.0:" "pmstatus" "git" "100.0" ""
    100 (by decide) (Or.inl rfl) (by decide)
  simpa using h

theorem splitFirstColons_none_iff (l : List Char) :
    splitFirstColons l = none ↔ ¬ ∃ l1 l2, l = l1 ++ ':' :: ':' :: l2 := by
  induction l with
  | nil =>
    simp only [splitFirstColons, true_iff]
    rintro ⟨l1, l2, h⟩
    cases l1 <;> simp at h
  | cons c rest ih =>
    rw [splitFirstColons]
    by_cases hc : c = ':' ∧ rest.head? = some ':'
    · rw [if_pos (by simp [hc.1, hc.2])]
      obtain ⟨rfl, hh⟩ := hc
      cases rest with
      | nil => simp at hh
      | cons r t =>
        obtain rfl : r = ':' := by simpa using hh
        exact iff_of_false (by simp) (fun hn => hn ⟨[], t, rfl⟩)
    · rw [if_neg (by
        intro hb
        rcases Bool.and_eq_true .. |>.mp hb with ⟨h1, h2⟩
        exact hc ⟨by simpa using h1, by simpa using h2⟩)]
      rw [Option.map_eq_none', ih]
      constructor
      · intro hrest
        rintro ⟨l1, l2, heq⟩
        cases l1 with
        | nil =>
          simp only [List.nil_append, List.cons.injEq] at heq
          exact hc ⟨heq.1, by rw [heq.2]; rfl⟩
        | cons a l1t =>
          simp only [List.cons_append, List.cons.injEq] at heq
          exact hrest ⟨l1t, l2, heq.2⟩
      · intro hfull
        rintro ⟨l1, l2, heq⟩
        exact hfull ⟨c :: l1, l2, by rw [List.cons_append, heq]⟩

/-- Claim C5: `get_tag_facet` splits on the first `::` occurrence only, so
`"a::b::c"` yields `("a", "b::c")`, and it returns `none` exactly when the
tag has no `::` separator or the facet or value component of the first-split
is empty; in particular `"::value"`, `"facet::"` and `"::"` all yield
`none`. -/
theorem get_tag_facet_correct :
    get_tag_facet "a::b::c" = some ("a", "b::c") ∧
    get_tag_facet "::value" = none ∧
    get_tag_facet "facet::" = none ∧
    get_tag_facet "::" = none ∧
    (∀ t : String, get_tag_facet t = none ↔
      (¬ ∃ l1 l2, t.data = l1 ++ ':' :: ':' :: l2) ∨
      ∃ f v, splitFirstColons t.data = some (f, v) ∧ (f = [] ∨ v = [])) := by
  refine ⟨by decide, by decide, by decide, by decide, ?_⟩
  intro t
  rcases h : splitFirstColons t.data with - | ⟨f, v⟩
  · simp only [get_tag_facet, h, true_iff]
    exact Or.inl ((splitFirstColons_none_iff t.data).mp h)
  · have hsep : ∃ l1 l2, t.data = l1 ++ ':' :: ':' :: l2 := by
      by_contra hn
      rw [← splitFirstColons_none_iff t.data] at hn
      rw [h] at hn
      exact Option.noConfusion hn
    simp only [get_tag_facet, h]
    by_cases he : f = [] ∨ v = []
    · rw [if_pos (by rcases he with h1 | h1 <;> simp [h1])]
      simp only [true_iff]
      exact Or.inr ⟨f, v, rfl, he⟩
    · rw [if_neg (by
        intro hb
        rcases Bool.or_eq_true .. |>.mp hb with h1 | h1
        · exact he (Or.inl (by simpa using h1))
        · exact he (Or.inr (by simpa using h1)))]
      refine iff_of_false (by simp) ?_
      rintro (hns | ⟨f2, v2, heq, he2⟩)
      · exact hns hsep
      · obtain ⟨rfl, rfl⟩ : f = f2 ∧ v = v2 := by
          have := Option.some.inj heq
          exact ⟨congrArg Prod.fst this, congrArg Prod.snd this⟩
        exact he he2

/- ### Progress monotonicity (C3) -/

theorem emit_from_strict_mono (lines : List String) :
    ∀ last : Int,
      List.Chain' (fun a b : ProgressInfo => a.percentage < b.percentage)
        (emit_from last lines) ∧
      ∀ e ∈ emit_from last lines, last < e.percentage := by
  induction lines with
  | nil => intro last; simp [emit_from]
  | cons raw rest ih =>
    intro last
    rw [emit_from]
    by_cases hline : strTrim raw = ""
    · rw [if_pos hline]; exact ih last
    · rw [if_neg hline]
      cases hp : parse_status_line (strTrim raw) with
      | none => exact ih last
      | some info =>
        dsimp only
        by_cases hgt : info.percentage > last
        · rw [if_pos hgt]
          obtain ⟨ihchain, ihgt⟩ := ih info.percentage
          refine ⟨List.chain'_cons'.mpr ⟨?_, ihchain⟩, ?_⟩
          · intro y hy
            exact ihgt y (List.mem_of_mem_head? hy)
          · intro e he
            rcases List.mem_cons.mp he with rfl | he2
            · exact hgt
            · exact lt_trans hgt (ihgt e he2)
        · rw [if_neg hgt]; exact ih last

/-- Counterexample for C3: after a parsed status line at percentage 150, the
unconditional final success event at 100 makes the full emitted stream
`[150, 100]`, which is neither strictly nor weakly increasing. -/
theorem install_events_not_monotonic :
    (install_events ["pmstatus:a:150:x"] 0).map (fun e => e.percentage) = [150, 100] ∧
    ¬ List.Chain' (fun a b : ProgressInfo => a.percentage < b.percentage)
        (install_events ["pmstatus:a:150:x"] 0) ∧
    ¬ List.Chain' (fun a b : ProgressInfo => a.percentage ≤ b.percentage)
        (install_events ["pmstatus:a:150:x"] 0) := by
  refine ⟨by decide, ?_, ?_⟩ <;>
  · intro h
    have h2 := h
    rw [show install_events ["pmstatus:a:150:x"] 0 =
      [⟨150, "x"⟩, ⟨100, "Installation complete"⟩] from by decide] at h2
    rcases List.chain'_cons.mp h2 with ⟨hlt, -⟩
    exact absurd hlt (by decide)

/-- Claim C3 (amended): within one supervised install or remove operation
the line-derived emitted events are strictly increasing in percentage — a
parsed status line produces an event only when its percentage strictly
exceeds the last emitted percentage — so consecutive non-increasing lines
produce at most one event; the unconditional final success event at 100
extends this strictly increasing stream only when every line-derived event
stayed below 100. -/
theorem install_events_monotonic :
    (∀ lines : List String,
      List.Chain' (fun a b : ProgressInfo => a.percentage < b.percentage)
        (status_emitted lines)) ∧
    (∀ (lines : List String) (exitCode : Int),
      (∀ e ∈ status_emitted lines, e.percentage < 100) →
      List.Chain' (fun a b : ProgressInfo => a.percentage < b.percentage)
        (install_events lines exitCode)) := by
  constructor
  · intro lines
    exact (emit_from_strict_mono lines 0).1
  · intro lines exitCode hlt
    rw [install_events]
    refine List.chain'_append.mpr ⟨(emit_from_strict_mono lines 0).1, ?_, ?_⟩
    · split <;> simp
    · intro x hx y hy
      split at hy
      · simp only [List.head?_cons, Option.mem_def] at hy
        obtain rfl : y = ⟨100, "Installation complete"⟩ := (Option.some.inj hy).symm
        exact hlt x (List.mem_of_mem_getLast? hx)
      · simp at hy

/-- Witness for C3: the theorem applied to a run with one status line at 25
percent and a successful exit, producing the strictly increasing stream
`[25, 100]`. -/
theorem install_events_monotonic_witness :
    List.Chain' (fun a b : ProgressInfo => a.percentage < b.percentage)
      (install_events ["pmstatus:nginx:25.5:Installing nginx"] 0) :=
  install_events_monotonic.2 ["pmstatus:nginx:25.5:Installing nginx"] 0 (by decide)

/- ### Remove command: essential packages (C10) -/

/-- Claim C10: for every package name in the fixed essential set, the remove
operation passes name validation and then fails with the ESSENTIAL_PACKAGE
error before spawning any subprocess — the run reports `spawned = false`,
emits no event, and returns the essential-package error, whatever the child
would have done. -/
theorem remove_essential_no_spawn :
    ∀ name ∈ ESSENTIAL_PACKAGES, valid_package_name name = true ∧
      ∀ (statusLines : List String) (exitCode : Int) (stderr : String),
        remove_execute name statusLines exitCode stderr =
          ⟨false, [],
           .error (.bridgeError ("Cannot remove essential package '" ++ name ++ "'")
             "ESSENTIAL_PACKAGE" (some "Removing this package may break your system"))⟩ := by
  intro name hm
  fin_cases hm <;> exact ⟨rfl, fun _ _ _ => rfl⟩

/-- Witness for C10: removing `bash` is blocked without spawning, even
though a child run is described. -/
theorem remove_essential_no_spawn_witness :
    valid_package_name "bash" = true ∧
    remove_execute "bash" ["pmstatus:bash:50:Removing bash"] 0 "" =
      ⟨false, [],
       .error (.bridgeError "Cannot remove essential package 'bash'"
         "ESSENTIAL_PACKAGE" (some "Removing this package may break your system"))⟩ := by
  have h := remove_essential_no_spawn "bash" (by decide)
  exact ⟨h.1, (h.2 ["pmstatus:bash:50:Removing bash"] 0 "").trans (by decide)⟩

/- ### Update command: failure classification (C8) -/

/-- Claim C8 (code bug): on a non-zero exit of the refresh operation, the
classification branches for NETWORK_ERROR and LOCKED are unreachable — the
process is started with stderr merged into stdout, so `communicate()`
returns `None` for stderr and the generic UPDATE_FAILED error is raised even
when the diagnostic output contains the DNS-resolution-failure or lock
phrases; the classifier itself, had it been given the captured text, would
have produced NETWORK_ERROR and LOCKED respectively. -/
theorem update_classification_unreachable :
    (update_execute ["Err:1 http://archive.example/debian bookworm InRelease",
        "  Could not resolve 'archive.example'"] 100).2 =
      .error (.bridgeError "Failed to update package lists" "UPDATE_FAILED" none) ∧
    (update_execute ["E: dpkg was interrupted, you must manually run dpkg"] 100).2 =
      .error (.bridgeError "Failed to update package lists" "UPDATE_FAILED" none) ∧
    update_classify (some "W: Could not resolve 'archive.example'") =
      .bridgeError "Network error: Unable to reach package repositories" "NETWORK_ERROR"
        (some "W: Could not resolve 'archive.example'") ∧
    update_classify (some "E: dpkg was interrupted") =
      .bridgeError "Package manager is locked" "LOCKED" (some "E: dpkg was interrupted") :=
  ⟨by decide, by decide, by decide, by decide⟩

/- ### Filter pipeline: tab validation order (C9) and result counts (C4) -/

/-- Counterexample for C9: with an invalid tab value and a failing cache
open, the call fails with the cache-open error, not the tab validation
error — the package cache (an external call) is opened before the tab value
is validated. -/
theorem filter_packages_cache_opened_first :
    filter_packages_execute (.error "could not open cache") [] none none (some "bogus")
        none 1000 =
      .error (.cacheError "Failed to open APT cache" "could not open cache") ∧
    AptError.cacheError "Failed to open APT cache" "could not open cache" ≠
      invalid_tab_error "bogus" :=
  ⟨by decide, by decide⟩

/-- Claim C9 (amended): a non-empty tab value other than `"installed"` or
`"upgradable"` fails the whole call with the tab validation error — no
per-package filtering result is produced and the outcome is the same for
every package collection — but only after the package cache has been opened
and the store configuration resolved, not before those external calls. -/
theorem filter_packages_invalid_tab :
    ∀ (cache : List Package) (stores : List StoreConfig)
      (store_id repository_id search_query : Option String) (limit : Nat) (t : String),
      t ≠ "" → t ≠ "installed" → t ≠ "upgradable" →
      (∀ s, optTruthy store_id = some s → (stores.find? (fun st => st.id = s)).isSome) →
      filter_packages_execute (.ok cache) stores store_id repository_id (some t)
        search_query limit = .error (invalid_tab_error t) := by
  intro cache stores store_id repository_id search_query limit t ht hti htu hstore
  have htb : optTruthy (some t) = some t := by simp [optTruthy, ht]
  rw [filter_packages_execute]
  dsimp only
  cases hsid : optTruthy store_id with
  | none =>
    dsimp only
    rw [htb]
    dsimp only
    rw [if_pos (by simp [hti, htu])]
  | some s =>
    obtain ⟨st, hfind⟩ := Option.isSome_iff_exists.mp (hstore s hsid)
    dsimp only
    rw [hfind]
    dsimp only
    rw [htb]
    dsimp only
    rw [if_pos (by simp [hti, htu])]

/-- Witness for C9 (amended): the invalid tab `"all"` is rejected on a
concrete collection. -/
theorem filter_packages_invalid_tab_witness :
    filter_packages_execute (.ok samplePkgs) [] none none (some "all") none 1000 =
      .error (invalid_tab_error "all") :=
  filter_packages_invalid_tab samplePkgs [] none none none 1000 "all"
    (by decide) (by decide) (by decide) (fun s hs => by simp [optTruthy] at hs)

/-- Claim C4: whenever filter_packages succeeds, `total_count` is the number
of packages passing all active cascade stages before limiting, `packages` is
the first `limit` of those packages (formatted), and `limited` holds exactly
when `total_count` exceeds the limit; with `limit = 0` the items are empty,
`total_count` is the unlimited match count, and `limited = (total_count >
0)`. -/
theorem filter_packages_counts :
    ∀ (cache : List Package) (stores : List StoreConfig)
      (store_id repository_id tab search_query : Option String) (limit : Nat)
      (r : FilterResult),
      filter_packages_execute (.ok cache) stores store_id repository_id tab search_query
        limit = .ok r →
      ∃ store : Option StoreConfig,
        r.total_count = (cache.filter (passes_filters store (optTruthy repository_id)
          (optTruthy tab) (optTruthy search_query))).length ∧
        r.packages = ((cache.filter (passes_filters store (optTruthy repository_id)
          (optTruthy tab) (optTruthy search_query))).take limit).map format_package ∧
        r.limited = decide (r.total_count > limit) ∧
        (limit = 0 → r.packages = [] ∧ r.limited = decide (r.total_count > 0)) := by
  intro cache stores store_id repository_id tab search_query limit r hr
  rw [filter_packages_execute] at hr
  dsimp only at hr
  rcases hsid : optTruthy store_id with - | s <;> rw [hsid] at hr <;> dsimp only at hr
  case none =>
    rcases htb : optTruthy tab with - | t <;> rw [htb] at hr <;> dsimp only at hr
    case none =>
      obtain rfl := (Except.ok.inj hr).symm
      refine ⟨none, rfl, rfl, rfl, ?_⟩
      rintro rfl
      simp
    case some =>
      split at hr
      · exact absurd hr (by simp)
      · obtain rfl := (Except.ok.inj hr).symm
        refine ⟨none, rfl, rfl, rfl, ?_⟩
        rintro rfl
        simp
  case some =>
    rcases hfind : stores.find? (fun st => st.id = s) with - | st <;> rw [hfind] at hr <;>
      dsimp only at hr
    case none => exact absurd hr (by simp)
    case some =>
      rcases htb : optTruthy tab with - | t <;> rw [htb] at hr <;> dsimp only at hr
      case none =>
        obtain rfl := (Except.ok.inj hr).symm
        refine ⟨some st, rfl, rfl, rfl, ?_⟩
        rintro rfl
        simp
      case some =>
        split at hr
        · exact absurd hr (by simp)
        · obtain rfl := (Except.ok.inj hr).symm
          refine ⟨some st, rfl, rfl, rfl, ?_⟩
          rintro rfl
          simp

/-- Witness for C4: the theorem applied to a concrete collection with
`limit = 0`: two of the three sample packages are installed, and the call
reports them all with no items and `limited = true`. -/
theorem filter_packages_counts_witness :
    ∃ store : Option StoreConfig,
      (2 : Nat) = (samplePkgs.filter (passes_filters store (optTruthy none)
        (optTruthy (some "installed")) (optTruthy none))).length ∧
      ([] : List PackageSummary) = ((samplePkgs.filter (passes_filters store (optTruthy none)
        (optTruthy (some "installed")) (optTruthy none))).take 0).map format_package ∧
      true = decide ((2 : Nat) > 0) ∧
      ((0 : Nat) = 0 → ([] : List PackageSummary) = [] ∧ true = decide ((2 : Nat) > 0)) := by
  have h := filter_packages_counts samplePkgs [] none none (some "installed") none 0
    ⟨[], 2, ["tab=installed"], 0, true⟩ (by decide)
  exact h

/- ### Store filter matching (C1) -/

/-- Claim C1: a package matches the store filter iff at least one of the
four criterion lists is non-empty and contains the package's corresponding
attribute — its name, its origin key (first origin record's origin falling
back to label), its section, or one of its parsed raw tags — by exact
string match; empty criterion lists are skipped and missing metadata merely
fails the corresponding criterion. -/
theorem matches_store_filter_iff :
    ∀ (pkg : Package) (store : StoreConfig),
      matches_store_filter pkg store = true ↔
        (store.filters.include_packages ≠ [] ∧
          pkg.name ∈ store.filters.include_packages) ∨
        (store.filters.include_origins ≠ [] ∧
          origin_key pkg ∈ store.filters.include_origins) ∨
        (store.filters.include_sections ≠ [] ∧
          pkg_section pkg ∈ store.filters.include_sections) ∨
        (store.filters.include_tags ≠ [] ∧
          ∃ t ∈ store.filters.include_tags, has_tag pkg t = true) := by
  intro pkg store
  have hlist : ∀ (l : List String) (a : String),
      (!l.isEmpty && l.contains a) = true ↔ l ≠ [] ∧ a ∈ l := by
    intro l a
    rw [Bool.and_eq_true]
    constructor
    · rintro ⟨he, hc⟩
      refine ⟨?_, List.elem_iff.mp hc⟩
      intro hnil
      rw [hnil] at he
      exact absurd he (by decide)
    · rintro ⟨hne, hmem⟩
      refine ⟨?_, List.elem_iff.mpr hmem⟩
      cases l with
      | nil => exact absurd rfl hne
      | cons x xs => rfl
  have htags : ∀ l : List String,
      (!l.isEmpty && l.any (fun t => has_tag pkg t)) = true ↔
        l ≠ [] ∧ ∃ t ∈ l, has_tag pkg t = true := by
    intro l
    rw [Bool.and_eq_true, List.any_eq_true]
    constructor
    · rintro ⟨he, hc⟩
      refine ⟨?_, hc⟩
      intro hnil
      rw [hnil] at he
      exact absurd he (by decide)
    · rintro ⟨hne, hex⟩
      refine ⟨?_, hex⟩
      cases l with
      | nil => exact absurd rfl hne
      | cons x xs => rfl
  rw [matches_store_filter]
  split_ifs with h1 h2 h3 h4
  · exact iff_of_true rfl (Or.inl ((hlist _ _).mp h1))
  · exact iff_of_true rfl (Or.inr (Or.inl ((hlist _ _).mp h2)))
  · exact iff_of_true rfl (Or.inr (Or.inr (Or.inl ((hlist _ _).mp h3))))
  · exact iff_of_true rfl (Or.inr (Or.inr (Or.inr ((htags _).mp h4))))
  · refine iff_of_false (by decide) ?_
    rintro (hc | hc | hc | hc)
    · exact h1 ((hlist _ _).mpr hc)
    · exact h2 ((hlist _ _).mpr hc)
    · exact h3 ((hlist _ _).mpr hc)
    · exact h4 ((htags _).mpr hc)

/- ### The case-insensitive and label orders are total preorders -/

theorem lexLe_total : ∀ a b : List Char, lexLe a b = true ∨ lexLe b a = true := by
  intro a
  induction a with
  | nil => intro b; exact Or.inl rfl
  | cons x xs ih =>
    intro b
    cases b with
    | nil => exact Or.inr rfl
    | cons y ys =>
      simp only [lexLe]
      rcases Nat.lt_trichotomy x.toNat y.toNat with h | h | h
      · rw [if_pos h]; exact Or.inl rfl
      · rw [if_neg (by omega), if_neg (by omega), if_neg (by omega), if_neg (by omega)]
        exact ih ys
      · exact Or.inr (by rw [if_pos h])

theorem lexLe_trans :
    ∀ a b c : List Char, lexLe a b = true → lexLe b c = true → lexLe a c = true := by
  intro a
  induction a with
  | nil => intro b c h1 h2; rfl
  | cons x xs ih =>
    intro b c h1 h2
    cases b with
    | nil => rw [lexLe] at h1; exact absurd h1 (by decide)
    | cons y ys =>
      cases c with
      | nil => rw [lexLe] at h2; exact absurd h2 (by decide)
      | cons z zs =>
        simp only [lexLe] at h1 h2 ⊢
        split_ifs at h1 h2 ⊢ <;>
          first
            | rfl
            | omega
            | (exact ih ys zs h1 h2)

instance : IsTotal Repository repoNameLe :=
  ⟨fun a b => lexLe_total (lowerChars a.name.data) (lowerChars b.name.data)⟩

instance : IsTrans Repository repoNameLe :=
  ⟨fun _ _ _ h1 h2 => lexLe_trans _ _ _ h1 h2⟩

instance : IsTotal Category catLabelLe :=
  ⟨fun a b => lexLe_total a.label.data b.label.data⟩

instance : IsTrans Category catLabelLe :=
  ⟨fun _ _ _ h1 h2 => lexLe_trans _ _ _ h1 h2⟩

/- ### Repository grouping invariant (C7) -/

theorem groupsOK_step {done : List Package} {groups : List RepoGroup}
    (h : GroupsOK done groups) (p : Package) :
    GroupsOK (done ++ [p]) (add_to_groups groups p) := by
  obtain ⟨hnd, hcnt, hcomp⟩ := h
  rcases hk : repo_key p with - | kp
  · have hag : add_to_groups groups p = groups := by
      rw [add_to_groups, hk]
    rw [hag]
    refine ⟨hnd, ?_, ?_⟩
    · intro g hg
      obtain ⟨hc, hrest⟩ := hcnt g hg
      refine ⟨?_, hrest⟩
      rw [List.countP_append, List.countP_cons, List.countP_nil, hc]
      simp [hk]
    · intro q hq k2 su2 hq2
      rcases List.mem_append.mp hq with hq | hq
      · exact hcomp q hq k2 su2 hq2
      · simp only [List.mem_singleton] at hq
        subst hq
        rw [hk] at hq2
        exact Option.noConfusion hq2
  · obtain ⟨k, su⟩ := kp
    rcases ho : first_origin p with - | r
    · exfalso
      rw [repo_key, ho] at hk
      exact Option.noConfusion hk
    · have hag : add_to_groups groups p =
        (if groups.any (fun g => groupKey g = (k, su)) then
          groups.map (fun g =>
            if groupKey g = (k, su) then { g with count := g.count + 1 } else g)
        else groups ++ [⟨k, su, r.origin, r.label, 1⟩]) := by
        rw [add_to_groups, hk, ho]
      have hkk : (if r.suite = "" then none
          else if r.origin = "" && r.label = "" then none
          else some (if r.origin = "" then r.label else r.origin, r.suite)) =
            some (k, su) := by
        rw [repo_key, ho] at hk
        exact hk
      have hsu : r.suite ≠ "" := by
        intro hs; rw [if_pos hs] at hkk; exact Option.noConfusion hkk
      rw [if_neg hsu] at hkk
      have hnb : ¬ (r.origin = "" && r.label = "") = true := by
        intro hb; rw [if_pos hb] at hkk; exact Option.noConfusion hkk
      rw [if_neg hnb] at hkk
      obtain ⟨hk1, hk2⟩ : (if r.origin = "" then r.label else r.origin) = k ∧ r.suite = su := by
        have := Option.some.inj hkk
        exact ⟨congrArg Prod.fst this, congrArg Prod.snd this⟩
      have hkne : k ≠ "" := by
        by_cases hro : r.origin = ""
        · rw [if_pos hro] at hk1
          have hlb : r.label ≠ "" := by
            intro hlb
            exact hnb (by rw [hro, hlb]; rfl)
          rw [← hk1]; exact hlb
        · rw [if_neg hro] at hk1
          rw [← hk1]; exact hro
      rw [hag]
      by_cases hpres : groups.any (fun g => groupKey g = (k, su)) = true
      · rw [if_pos hpres]
        have hbumpkey : ∀ g : RepoGroup,
            groupKey (if groupKey g = (k, su) then { g with count := g.count + 1 } else g) =
              groupKey g := by
          intro g; split <;> rfl
        have hkeys : (groups.map (fun g =>
            if groupKey g = (k, su) then { g with count := g.count + 1 } else g)).map groupKey =
              groups.map groupKey := by
          rw [List.map_map]
          exact List.map_congr_left (fun g _ => hbumpkey g)
        refine ⟨by rw [hkeys]; exact hnd, ?_, ?_⟩
        · intro g' hg'
          obtain ⟨g, hg, rfl⟩ := List.mem_map.mp hg'
          obtain ⟨hc, h0, hkey, hsune, hkne2⟩ := hcnt g hg
          by_cases hgk : groupKey g = (k, su)
          · rw [if_pos hgk]
            refine ⟨?_, Nat.succ_pos _, hkey, hsune, hkne2⟩
            show g.count + 1 = _
            rw [List.countP_append, List.countP_cons, List.countP_nil]
            have hpk : repo_key p = some (groupKey ({ g with count := g.count + 1 } : RepoGroup)) := by
              show repo_key p = some (groupKey g)
              rw [hk, hgk]
            have hcg : ({ g with count := g.count + 1 } : RepoGroup).count =
                g.count + 1 := rfl
            have : done.countP (fun q => decide (repo_key q =
                some (groupKey ({ g with count := g.count + 1 } : RepoGroup)))) = g.count := by
              rw [show groupKey ({ g with count := g.count + 1 } : RepoGroup) = groupKey g from rfl]
              exact hc.symm
            rw [this]
            simp [hpk]
          · rw [if_neg hgk]
            refine ⟨?_, h0, hkey, hsune, hkne2⟩
            rw [List.countP_append, List.countP_cons, List.countP_nil]
            have hpk : ¬ (repo_key p = some (groupKey g)) := by
              rw [hk]
              intro hq
              exact hgk (Option.some.inj hq).symm
            simp [hpk, hc]
        · intro q hq k2 su2 hq2
          rcases List.mem_append.mp hq with hq | hq
          · obtain ⟨g, hg, hgk⟩ := hcomp q hq k2 su2 hq2
            refine ⟨_, List.mem_map_of_mem _ hg, ?_⟩
            rw [hbumpkey g]
            exact hgk
          · simp only [List.mem_singleton] at hq
            subst hq
            rw [hk] at hq2
            obtain ⟨rfl, rfl⟩ : k = k2 ∧ su = su2 := by
              have := Option.some.inj hq2
              exact ⟨congrArg Prod.fst this, congrArg Prod.snd this⟩
            obtain ⟨g, hg, hgk⟩ := List.any_eq_true.mp hpres
            refine ⟨_, List.mem_map_of_mem _ hg, ?_⟩
            rw [hbumpkey g]
            exact of_decide_eq_true hgk
      · rw [if_neg hpres]
        have hnotin : ∀ g ∈ groups, groupKey g ≠ (k, su) := by
          intro g hg hgk
          exact hpres (List.any_eq_true.mpr ⟨g, hg, decide_eq_true hgk⟩)
        refine ⟨?_, ?_, ?_⟩
        · rw [List.map_append, List.nodup_append]
          refine ⟨hnd, by simp, ?_⟩
          intro x hx hx2
          obtain ⟨g, hg, rfl⟩ := List.mem_map.mp hx
          simp only [List.map_cons, List.map_nil, List.mem_singleton] at hx2
          exact hnotin g hg (by rw [hx2]; rfl)
        · intro g hg
          rcases List.mem_append.mp hg with hg | hg
          · obtain ⟨hc, h0, hkey, hsune, hkne2⟩ := hcnt g hg
            refine ⟨?_, h0, hkey, hsune, hkne2⟩
            rw [List.countP_append, List.countP_cons, List.countP_nil]
            have hpk : ¬ (repo_key p = some (groupKey g)) := by
              rw [hk]
              intro hq
              exact hnotin g hg (Option.some.inj hq).symm
            simp [hpk, hc]
          · simp only [List.mem_singleton] at hg
            subst hg
            refine ⟨?_, Nat.one_pos, hk1.symm, by rw [← hk2]; exact hsu, hkne⟩
            rw [List.countP_append, List.countP_cons, List.countP_nil]
            have hz : done.countP (fun q => decide (repo_key q =
                some (groupKey (⟨k, su, r.origin, r.label, 1⟩ : RepoGroup)))) = 0 := by
              rw [List.countP_eq_zero]
              intro q hq hd
              obtain ⟨g, hg, hgk⟩ := hcomp q hq k su (of_decide_eq_true hd)
              exact hnotin g hg hgk
            rw [hz]
            have hpk : repo_key p =
                some (groupKey (⟨k, su, r.origin, r.label, 1⟩ : RepoGroup)) := hk
            simp [hpk]
        · intro q hq k2 su2 hq2
          rcases List.mem_append.mp hq with hq | hq
          · obtain ⟨g, hg, hgk⟩ := hcomp q hq k2 su2 hq2
            exact ⟨g, List.mem_append_left _ hg, hgk⟩
          · simp only [List.mem_singleton] at hq
            subst hq
            rw [hk] at hq2
            obtain ⟨rfl, rfl⟩ : k = k2 ∧ su = su2 := by
              have := Option.some.inj hq2
              exact ⟨congrArg Prod.fst this, congrArg Prod.snd this⟩
            exact ⟨⟨k, su, r.origin, r.label, 1⟩, List.mem_append_right _ (by simp), rfl⟩

theorem groupsOK_fold :
    ∀ (ps done : List Package) (groups : List RepoGroup),
      GroupsOK done groups → GroupsOK (done ++ ps) (ps.foldl add_to_groups groups) := by
  intro ps
  induction ps with
  | nil => intro done groups h; simpa using h
  | cons p ps ih =>
    intro done groups h
    rw [List.foldl_cons]
    have h3 := ih (done ++ [p]) (add_to_groups groups p) (groupsOK_step h p)
    simpa [List.append_assoc] using h3

theorem groupsOK_parse (packages : List Package) :
    GroupsOK packages (packages.foldl add_to_groups []) := by
  have h0 : GroupsOK [] [] := ⟨by simp, by simp, by simp⟩
  simpa using groupsOK_fold packages [] [] h0

theorem add_to_groups_congr (groups : List RepoGroup) {p q : Package}
    (h : first_origin p = first_origin q) :
    add_to_groups groups p = add_to_groups groups q := by
  have hrk : repo_key p = repo_key q := by
    rw [repo_key, repo_key, h]
  rw [add_to_groups, add_to_groups, hrk, h]

theorem foldl_add_to_groups_congr :
    ∀ (ps qs : List Package) (groups : List RepoGroup),
      ps.map first_origin = qs.map first_origin →
      ps.foldl add_to_groups groups = qs.foldl add_to_groups groups := by
  intro ps
  induction ps with
  | nil =>
    intro qs groups h
    cases qs with
    | nil => rfl
    | cons q qs => simp at h
  | cons p ps ih =>
    intro qs groups h
    cases qs with
    | nil => simp at h
    | cons q qs =>
      simp only [List.map_cons, List.cons.injEq] at h
      rw [List.foldl_cons, List.foldl_cons, add_to_groups_congr groups h.1,
        ih qs (add_to_groups groups q) h.2]

/-- Claim C7: repository resolution inspects only each package's first
origin record (collections with the same first origin records resolve
identically), skips packages without a usable first record, groups the rest
by `(origin-or-label, suite)` — each listed repository's count is exactly
the number of packages keyed to it and is positive, its id is
`"{name}:{suite}"`, its display name prefers origin over label and is
non-empty, its suite is non-empty, every non-skipped package has its
repository listed — and the result is sorted case-insensitively by name. -/
theorem parse_repositories_correct :
    ∀ packages : List Package,
      List.Sorted repoNameLe (parse_repositories packages) ∧
      (∀ r ∈ parse_repositories packages,
        r.id = r.name ++ ":" ++ r.suite ∧
        r.name = (if r.origin = "" then r.label else r.origin) ∧
        r.suite ≠ "" ∧ r.name ≠ "" ∧
        r.package_count =
          packages.countP (fun p => decide (repo_key p = some (r.name, r.suite))) ∧
        0 < r.package_count) ∧
      (∀ p ∈ packages, ∀ k su, repo_key p = some (k, su) →
        ∃ r ∈ parse_repositories packages, r.name = k ∧ r.suite = su) ∧
      (∀ packages2 : List Package,
        packages.map first_origin = packages2.map first_origin →
        parse_repositories packages = parse_repositories packages2) := by
  intro packages
  obtain ⟨-, hcnt, hcomp⟩ := groupsOK_parse packages
  refine ⟨List.sorted_insertionSort _ _, ?_, ?_, ?_⟩
  · intro r hr
    simp only [parse_repositories, List.mem_insertionSort] at hr
    obtain ⟨g, hg, rfl⟩ := List.mem_map.mp hr
    obtain ⟨hc, h0, hkey, hsune, hkne⟩ := hcnt g hg
    exact ⟨rfl, hkey, hsune, hkne, hc, h0⟩
  · intro p hp k su hpk
    obtain ⟨g, hg, hgk⟩ := hcomp p hp k su hpk
    obtain ⟨rfl, rfl⟩ : g.key = k ∧ g.suite = su := by
      exact ⟨congrArg Prod.fst hgk, congrArg Prod.snd hgk⟩
    refine ⟨⟨g.key ++ ":" ++ g.suite, g.key, g.origin, g.label, g.suite, g.count⟩, ?_, rfl, rfl⟩
    simp only [parse_repositories, List.mem_insertionSort]
    exact List.mem_map_of_mem _ hg
  · intro packages2 h
    rw [parse_repositories, parse_repositories, foldl_add_to_groups_congr packages packages2 [] h]

/-- Witness for C7: in the sample collection the `Debian:bookworm`
repository is listed with count 2, matching the number of packages keyed to
it. -/
theorem parse_repositories_correct_witness :
    (⟨"Debian:bookworm", "Debian", "Debian", "Debian", "bookworm", 2⟩ : Repository) ∈
      parse_repositories samplePkgs ∧
    (2 : Nat) =
      samplePkgs.countP (fun p => decide (repo_key p = some ("Debian", "bookworm"))) ∧
    (0 : Nat) < 2 := by
  have hm : (⟨"Debian:bookworm", "Debian", "Debian", "Debian", "bookworm", 2⟩ : Repository) ∈
      parse_repositories samplePkgs := by decide
  have h := ((parse_repositories_correct samplePkgs).2.1 _ hm).2.2.2.2
  exact ⟨hm, h.1, h.2⟩

/- ### Category counting invariant (C6) -/

theorem countsOK_step {occs : List String} {acc : List (String × Nat)}
    (h : CountsOK occs acc) (cid : String) :
    CountsOK (occs ++ [cid]) (bump_count acc cid) := by
  obtain ⟨hnd, hcnt, hcomp⟩ := h
  rw [bump_count]
  by_cases hpres : acc.any (fun e => e.1 = cid) = true
  · rw [if_pos hpres]
    have hbumpkey : ∀ e : String × Nat,
        (if e.1 = cid then (e.1, e.2 + 1) else e).1 = e.1 := by
      intro e; split <;> rfl
    have hkeys : (acc.map (fun e => if e.1 = cid then (e.1, e.2 + 1) else e)).map Prod.fst =
        acc.map Prod.fst := by
      rw [List.map_map]
      exact List.map_congr_left (fun e _ => hbumpkey e)
    refine ⟨by rw [hkeys]; exact hnd, ?_, ?_⟩
    · intro e' he'
      obtain ⟨e, he, rfl⟩ := List.mem_map.mp he'
      obtain ⟨hc, h0⟩ := hcnt e he
      by_cases hek : e.1 = cid
      · rw [if_pos hek]
        refine ⟨?_, Nat.succ_pos _⟩
        show e.2 + 1 = List.count e.1 (occs ++ [cid])
        rw [List.count_append, List.count_singleton, if_pos (by
          rw [hek]; exact beq_self_eq_true _), hc]
      · rw [if_neg hek]
        refine ⟨?_, h0⟩
        rw [List.count_append, List.count_singleton, if_neg (by
          intro hb
          exact hek (beq_iff_eq .. |>.mp hb).symm), hc]
        omega
    · intro cid2 hc2
      rcases List.mem_append.mp hc2 with hc2 | hc2
      · obtain ⟨e, he, hek⟩ := hcomp cid2 hc2
        refine ⟨_, List.mem_map_of_mem _ he, ?_⟩
        rw [hbumpkey e]
        exact hek
      · simp only [List.mem_singleton] at hc2
        subst hc2
        obtain ⟨e, he, hek⟩ := List.any_eq_true.mp hpres
        refine ⟨_, List.mem_map_of_mem _ he, ?_⟩
        rw [hbumpkey e]
        exact of_decide_eq_true hek
  · rw [if_neg hpres]
    have hnotin : ∀ e ∈ acc, e.1 ≠ cid := by
      intro e he hek
      exact hpres (List.any_eq_true.mpr ⟨e, he, decide_eq_true hek⟩)
    have hfresh : cid ∉ occs := by
      intro hmem
      obtain ⟨e, he, hek⟩ := hcomp cid hmem
      exact hnotin e he hek
    refine ⟨?_, ?_, ?_⟩
    · rw [List.map_append, List.nodup_append]
      refine ⟨hnd, by simp, ?_⟩
      intro x hx hx2
      obtain ⟨e, he, rfl⟩ := List.mem_map.mp hx
      simp only [List.map_cons, List.map_nil, List.mem_singleton] at hx2
      exact hnotin e he hx2
    · intro e he
      rcases List.mem_append.mp he with he | he
      · obtain ⟨hc, h0⟩ := hcnt e he
        refine ⟨?_, h0⟩
        rw [List.count_append, List.count_singleton, if_neg (by
          intro hb
          exact hnotin e he (beq_iff_eq .. |>.mp hb).symm), hc]
        omega
      · simp only [List.mem_singleton] at he
        subst he
        refine ⟨?_, Nat.one_pos⟩
        show 1 = List.count cid (occs ++ [cid])
        rw [List.count_append, List.count_singleton, if_pos (beq_self_eq_true _),
          List.count_eq_zero.mpr hfresh]
    · intro cid2 hc2
      rcases List.mem_append.mp hc2 with hc2 | hc2
      · obtain ⟨e, he, hek⟩ := hcomp cid2 hc2
        exact ⟨e, List.mem_append_left _ he, hek⟩
      · simp only [List.mem_singleton] at hc2
        exact ⟨(cid, 1), List.mem_append_right _ (by simp), hc2.symm⟩

theorem countsOK_fold :
    ∀ (os occs : List String) (acc : List (String × Nat)),
      CountsOK occs acc → CountsOK (occs ++ os) (os.foldl bump_count acc) := by
  intro os
  induction os with
  | nil => intro occs acc h; simpa using h
  | cons o os ih =>
    intro occs acc h
    rw [List.foldl_cons]
    have h3 := ih (occs ++ [o]) (bump_count acc o) (countsOK_step h o)
    simpa [List.append_assoc] using h3

theorem collect_eq_stream (store : Option StoreConfig) :
    ∀ (packages : List Package) (acc : List (String × Nat)),
      packages.foldl
        (fun acc pkg =>
          if category_passes store pkg then
            (get_tags_by_facet pkg "category").foldl bump_count acc
          else acc) acc =
      (category_stream packages store).foldl bump_count acc := by
  intro packages
  induction packages with
  | nil => intro acc; rfl
  | cons p ps ih =>
    intro acc
    rw [List.foldl_cons, category_stream, List.flatMap_cons, List.foldl_append, ih]
    rw [category_stream]
    by_cases hp : category_passes store p = true
    · rw [if_pos hp, if_pos hp]
    · rw [if_neg hp, if_neg hp]
      rfl

theorem countsOK_collect (packages : List Package) (store : Option StoreConfig) :
    CountsOK (category_stream packages store) (collect_category_counts packages store) := by
  rw [collect_category_counts, collect_eq_stream]
  have h0 : CountsOK [] [] := ⟨by simp, by simp, by simp⟩
  simpa using countsOK_fold (category_stream packages store) [] [] h0

/-- Counterexample for C6: a package whose tag field repeats `category::x`
twice is counted once per occurrence, so the listed count (2) differs from
the number of store-passing packages carrying the tag (1). -/
theorem list_categories_count_not_per_package :
    ¬ (∀ (packages : List Package) (store : Option StoreConfig),
        ∀ c ∈ list_categories_execute packages store,
        c.count = (packages.filter (fun p => category_passes store p &&
          (get_tags_by_facet p "category").contains c.id)).length) := by
  intro h
  have h1 := h [samplePkgC] none ⟨"x", "X", none, none, 2⟩ (by decide)
  have h2 : ([samplePkgC].filter (fun p => category_passes none p &&
      (get_tags_by_facet p "category").contains (⟨"x", "X", none, none, 2⟩ : Category).id)).length
        = 1 := by decide
  rw [h2] at h1
  exact absurd h1 (by decide)

/-- Claim C6 (amended): each listed category's count equals the number of
`category::<id>` tag occurrences among the packages passing the optional
store filter (which equals the number of carrying packages whenever no
package repeats a tag), every listed count is positive, the occurrence
counts are invariant under package order, and the resulting list is sorted
by label. -/
theorem list_categories_correct :
    ∀ (packages : List Package) (store : Option StoreConfig),
      List.Sorted catLabelLe (list_categories_execute packages store) ∧
      (∀ c ∈ list_categories_execute packages store,
        c.count = category_occurrences packages store c.id ∧ 0 < c.count) ∧
      (∀ packages2 : List Package, packages.Perm packages2 →
        ∀ cid, category_occurrences packages2 store cid =
          category_occurrences packages store cid) := by
  intro packages store
  obtain ⟨-, hcnt, -⟩ := countsOK_collect packages store
  refine ⟨List.sorted_insertionSort _ _, ?_, ?_⟩
  · intro c hc
    simp only [list_categories_execute, List.mem_insertionSort] at hc
    obtain ⟨e, he, hce⟩ := List.mem_map.mp hc
    obtain ⟨hc2, h0⟩ := hcnt e he
    have hfields : c.id = e.1 ∧ c.count = e.2 := by
      rcases hm : metadata_for store e.1 with - | m <;> rw [hm] at hce <;>
        exact ⟨congrArg Category.id hce.symm, congrArg Category.count hce.symm⟩
    rw [hfields.1, hfields.2, category_occurrences]
    exact ⟨hc2, h0⟩
  · intro packages2 hperm cid
    rw [category_occurrences, category_occurrences, category_stream, category_stream]
    exact List.Perm.count_eq (List.Perm.flatMap_right _ hperm.symm) cid

/-- Witness for C6: the theorem applied to the sample collection, whose one
passing package carries `category::x` twice — the listed count 2 equals the
occurrence count. -/
theorem list_categories_correct_witness :
    (2 : Nat) = category_occurrences [samplePkgC] none "x" ∧ (0 : Nat) < 2 := by
  have h := (list_categories_correct [samplePkgC] none).2.1
    ⟨"x", "X", none, none, 2⟩ (by decide)
  exact h
